import Mathlib

/-!
Verification of the halo2-aes AES-128 circuit sources against its
natural-language specification.

Shallow embedding conventions:
* A field element holding a byte is represented by the `Nat` that is its
  canonical value; `xor_bytes` on such elements coincides with `Nat.xor`
  (the Rust code XORs the little-endian byte decompositions, which for
  canonical values < 256 is exactly the byte XOR).
* A 16-byte key or plaintext is a `List Nat`; indexing `key[i]` in Rust
  becomes `key.getD i 0`.
* Witness-generation calls (`assign_advice`, `copy_advice`,
  `assign_fixed`, selector `enable`) are embedded as operation traces so
  that claims about which cells are assigned, copied or constrained can
  be stated; values inside the traces are computed by the same value
  functions as the pure embedding.
-/

set_option maxRecDepth 100000

set_option maxHeartbeats 4000000

namespace HaloAes

/-- Modelled from the spec: the module `crate::constant` / `crate::table::s_box`
holding `S_BOX` is not under src/ (only its users are).  Spec §6: "S-box: the
256-entry AES S-box in standard FIPS-197 order". -/
def S_BOX : List Nat :=
  [0x63, 0x7c, 0x77, 0x7b, 0xf2, 0x6b, 0x6f, 0xc5, 0x30, 0x01, 0x67, 0x2b, 0xfe, 0xd7, 0xab, 0x76,
   0xca, 0x82, 0xc9, 0x7d, 0xfa, 0x59, 0x47, 0xf0, 0xad, 0xd4, 0xa2, 0xaf, 0x9c, 0xa4, 0x72, 0xc0,
   0xb7, 0xfd, 0x93, 0x26, 0x36, 0x3f, 0xf7, 0xcc, 0x34, 0xa5, 0xe5, 0xf1, 0x71, 0xd8, 0x31, 0x15,
   0x04, 0xc7, 0x23, 0xc3, 0x18, 0x96, 0x05, 0x9a, 0x07, 0x12, 0x80, 0xe2, 0xeb, 0x27, 0xb2, 0x75,
   0x09, 0x83, 0x2c, 0x1a, 0x1b, 0x6e, 0x5a, 0xa0, 0x52, 0x3b, 0xd6, 0xb3, 0x29, 0xe3, 0x2f, 0x84,
   0x53, 0xd1, 0x00, 0xed, 0x20, 0xfc, 0xb1, 0x5b, 0x6a, 0xcb, 0xbe, 0x39, 0x4a, 0x4c, 0x58, 0xcf,
   0xd0, 0xef, 0xaa, 0xfb, 0x43, 0x4d, 0x33, 0x85, 0x45, 0xf9, 0x02, 0x7f, 0x50, 0x3c, 0x9f, 0xa8,
   0x51, 0xa3, 0x40, 0x8f, 0x92, 0x9d, 0x38, 0xf5, 0xbc, 0xb6, 0xda, 0x21, 0x10, 0xff, 0xf3, 0xd2,
   0xcd, 0x0c, 0x13, 0xec, 0x5f, 0x97, 0x44, 0x17, 0xc4, 0xa7, 0x7e, 0x3d, 0x64, 0x5d, 0x19, 0x73,
   0x60, 0x81, 0x4f, 0xdc, 0x22, 0x2a, 0x90, 0x88, 0x46, 0xee, 0xb8, 0x14, 0xde, 0x5e, 0x0b, 0xdb,
   0xe0, 0x32, 0x3a, 0x0a, 0x49, 0x06, 0x24, 0x5c, 0xc2, 0xd3, 0xac, 0x62, 0x91, 0x95, 0xe4, 0x79,
   0xe7, 0xc8, 0x37, 0x6d, 0x8d, 0xd5, 0x4e, 0xa9, 0x6c, 0x56, 0xf4, 0xea, 0x65, 0x7a, 0xae, 0x08,
   0xba, 0x78, 0x25, 0x2e, 0x1c, 0xa6, 0xb4, 0xc6, 0xe8, 0xdd, 0x74, 0x1f, 0x4b, 0xbd, 0x8b, 0x8a,
   0x70, 0x3e, 0xb5, 0x66, 0x48, 0x03, 0xf6, 0x0e, 0x61, 0x35, 0x57, 0xb9, 0x86, 0xc1, 0x1d, 0x9e,
   0xe1, 0xf8, 0x98, 0x11, 0x69, 0xd9, 0x8e, 0x94, 0x9b, 0x1e, 0x87, 0xe9, 0xce, 0x55, 0x28, 0xdf,
   0x8c, 0xa1, 0x89, 0x0d, 0xbf, 0xe6, 0x42, 0x68, 0x41, 0x99, 0x2d, 0x0f, 0xb0, 0x54, 0xbb, 0x16]

/-- Embedding of `utils::sub_byte`: substitute one byte through the S-box. -/
def sub_byte (x : Nat) : Nat := S_BOX.getD x 0

/-- Embedding of `utils::sub_word`: substitute each byte of a word. -/
def sub_word (w : List Nat) : List Nat := w.map sub_byte

/-- Modelled from the spec: `MUL_BY_2` of `crate::constant` is not under src/.
Spec §6: "MulBy2[x] = (x << 1) ^ (0x1B if (x & 0x80) else 0) truncated to 8 bits". -/
def mul_by_2 (x : Nat) : Nat := ((x <<< 1) ^^^ (if x &&& 0x80 = 0 then 0 else 0x1B)) &&& 0xFF

/-- Modelled from the spec: `MUL_BY_3` of `crate::constant` is not under src/.
Spec §6: "MulBy3[x] = MulBy2[x] ^ x". -/
def mul_by_3 (x : Nat) : Nat := mul_by_2 x ^^^ x

/-- Embedding of `utils::xor_bytes` specialised to canonical byte values:
XOR of the byte decompositions of two field elements. -/
def xor_bytes (x y : Nat) : Nat := x ^^^ y

/-- Embedding of `utils::xor_words`: byte-wise XOR of two 4-byte words. -/
def xor_words (x y : List Nat) : List Nat := (x.zip y).map (fun p => xor_bytes p.1 p.2)

/-- Embedding of `utils::ROUND_CONSTANT`. -/
def ROUND_CONSTANT : List Nat := [1, 2, 4, 8, 16, 32, 64, 128, 27, 54]

/-- Embedding of `utils::get_round_constant`. -/
def get_round_constant (round : Nat) : Nat := ROUND_CONSTANT.getD round 0

/-- Modelled from the spec: `utils::rotate_word` is imported by
`key_schedule.rs` but the version of utils.rs under src/ lacks it.  Spec §4.3:
the previous round's last word "rotated left by one byte"; the Rotate-word
gate comments in `key_schedule.rs` (first_byte == fourth_rot_byte, second_byte
== first_rot_byte, ...) pin the same circular left shift. -/
def rotate_word (w : List Nat) : List Nat := w.drop 1 ++ w.take 1

/-! ## Key schedule (`Aes128KeyScheduleConfig::schedule_keys`)

`schedule_keys` builds 44 words of 4 bytes each.  Words 0..3 are assigned from
the input key; the source line is
`|| Value::known(Fp::from(key[i * 4 + 1] as u64))` — note the `+ 1` where the
loop variable is `j`, so every byte of word `i` receives `key[4*i + 1]`.
Words 4..43 follow the AES-128 expansion recurrence. -/

/-- Round-0 words exactly as assigned by the source (with its `i * 4 + 1`
indexing): word `i` gets four copies of `key[4*i + 1]`. -/
def init_words (key : List Nat) : List (List Nat) :=
  (List.range 4).map (fun i => (List.range 4).map (fun _j => key.getD (i * 4 + 1) 0))

/-- One iteration of the `for i in 4..44` loop of `schedule_keys`, producing
the next word from the accumulated words `ws` (so `i = ws.length`). -/
def next_word (ws : List (List Nat)) : List Nat :=
  let i := ws.length
  let word_prev_round := ws.getD (i - 4) []
  let word_prev := ws.getD (i - 1) []
  if i % 4 = 0 then
    let rotated := rotate_word word_prev
    let subbed := sub_word rotated
    let rc := get_round_constant (i / 4 - 1)
    let rc_byte := xor_bytes rc (subbed.getD 0 0)
    let rconned := rc_byte :: subbed.drop 1
    xor_words rconned word_prev_round
  else
    xor_words word_prev word_prev_round

/-- Words accumulated after `t` iterations of the word loop (so index `i` of
the source loop corresponds to `t = i - 4`). -/
def schedule_words_upto (key : List Nat) : Nat → List (List Nat)
  | 0 => init_words key
  | t + 1 => schedule_words_upto key t ++ [next_word (schedule_words_upto key t)]

/-- The 44 scheduled words of `schedule_keys` (value level). -/
def schedule_words (key : List Nat) : List (List Nat) :=
  schedule_words_upto key 40

/-- Round key `r` as indexed by `encrypt`: `round_keys[r][i*4+j]` must address
16 bytes, i.e. the flattening of scheduled words `4r .. 4r+3`. -/
def round_key (key : List Nat) (r : Nat) : List Nat :=
  (schedule_words key).getD (4 * r) [] ++ (schedule_words key).getD (4 * r + 1) []
    ++ (schedule_words key).getD (4 * r + 2) [] ++ (schedule_words key).getD (4 * r + 3) []

/-! ## Reference AES-128 (spec side)

These definitions follow the spec's words (§4.3, §4.4, §6, §8) and FIPS-197;
they are the comparison point for the refinement claims C1 and C2. -/

/-- Reference FIPS-197 round-0 words: word `i` is `key[4i..4i+4]` in order. -/
def fips_init_words (key : List Nat) : List (List Nat) :=
  (List.range 4).map (fun i => (List.range 4).map (fun j => key.getD (i * 4 + j) 0))

/-- Reference FIPS-197 key expansion: 44 words. -/
def fips_words (key : List Nat) : List (List Nat) :=
  (List.range 40).foldl (fun ws _ => ws ++ [next_word ws]) (fips_init_words key)

/-- Reference round key `r`: flattening of reference words `4r .. 4r+3`. -/
def fips_round_key (key : List Nat) (r : Nat) : List Nat :=
  (fips_words key).getD (4 * r) [] ++ (fips_words key).getD (4 * r + 1) []
    ++ (fips_words key).getD (4 * r + 2) [] ++ (fips_words key).getD (4 * r + 3) []

/-- Reference SubBytes on a 16-byte column-major state. -/
def ref_sub_bytes (st : List Nat) : List Nat := st.map sub_byte

/-- Reference ShiftRows, spec §6: with state byte `4c+r` in column `c`, row
`r`, the new state has `new[4c+r] = old[4*((c+r) % 4) + r]`. -/
def ref_shift_rows (st : List Nat) : List Nat :=
  (List.range 4).flatMap (fun c => (List.range 4).map (fun r => st.getD (4 * ((c + r) % 4) + r) 0))

/-- Reference GF(2⁸) multiplication by a MixColumns coefficient in {1,2,3}. -/
def ref_coef_mul (c b : Nat) : Nat :=
  if c = 1 then b else if c = 2 then mul_by_2 b else mul_by_3 b

/-- Reference MixColumns, spec §4.4: each column is multiplied by the fixed
matrix [[2,3,1,1],[1,2,3,1],[1,1,2,3],[3,1,1,2]]. -/
def ref_mix_columns (st : List Nat) : List Nat :=
  (List.range 4).flatMap (fun c =>
    let w := fun r => st.getD (4 * c + r) 0
    [xor_bytes (xor_bytes (mul_by_2 (w 0)) (mul_by_3 (w 1))) (xor_bytes (w 2) (w 3)),
     xor_bytes (xor_bytes (w 0) (mul_by_2 (w 1))) (xor_bytes (mul_by_3 (w 2)) (w 3)),
     xor_bytes (xor_bytes (w 0) (w 1)) (xor_bytes (mul_by_2 (w 2)) (mul_by_3 (w 3))),
     xor_bytes (xor_bytes (mul_by_3 (w 0)) (w 1)) (xor_bytes (w 2) (mul_by_2 (w 3)))])

/-- Reference AddRoundKey. -/
def ref_add_round_key (rk st : List Nat) : List Nat :=
  (List.range 16).map (fun t => xor_bytes (st.getD t 0) (rk.getD t 0))

/-- Reference AES-128 encryption of a 16-byte block (spec §2 data flow):
AddRoundKey(0), then rounds 1..10 of SubBytes, ShiftRows, MixColumns
(skipped in round 10), AddRoundKey. -/
def ref_aes128_encrypt (key pt : List Nat) : List Nat :=
  (List.range 10).foldl
    (fun st r0 =>
      let r := r0 + 1
      let sh := ref_shift_rows (ref_sub_bytes st)
      let mixed := if r = 10 then sh else ref_mix_columns sh
      ref_add_round_key (fips_round_key key r) mixed)
    (ref_add_round_key (fips_round_key key 0) pt)

/-! ## Encryption pipeline (`FixedAes128Config::encrypt`), value level

`encrypt` first re-runs `schedule_keys` on the stored key, then performs the
initial AddRoundKey and ten rounds.  The MixColumns coefficient dispatch in
`lcon` matches on the coefficient and panics on anything outside {1,2,3};
that fallibility is modelled with `Option` (`none` = the panic branch). -/

/-- The MixColumns coefficient matrix literal of `encrypt`. -/
def mix_matrix : List (List Nat) := [[2, 3, 1, 1], [1, 2, 3, 1], [1, 1, 2, 3], [3, 1, 1, 2]]

/-- The per-byte coefficient dispatch of `lcon`: `1` copies the byte, `2` and
`3` map it through the GF(2⁸) tables, anything else hits the source's
`panic!("col should be 1, 2, or 3.")`, modelled as `none`. -/
def lcon_coef (bc : Nat × Nat) : Option Nat :=
  match bc.2 with
  | 1 => some bc.1
  | 2 => some (mul_by_2 bc.1)
  | 3 => some (mul_by_3 bc.1)
  | _ => none

/-- Value computed by `lcon`: coefficient-multiplied bytes `tmp`, then
`(tmp0 ^ tmp1) ^ (tmp2 ^ tmp3)` via the two intermediates. -/
def lcon (word coeffs : List Nat) : Option Nat :=
  ((word.zip coeffs).mapM lcon_coef).map
    (fun tmp =>
      xor_bytes (xor_bytes (tmp.getD 0 0) (tmp.getD 1 0))
        (xor_bytes (tmp.getD 2 0) (tmp.getD 3 0)))

/-- SubBytes step of `encrypt`: the code substitutes word by word, which on
the flattened 16-byte state is a byte map. -/
def enc_sub_bytes (st : List Nat) : List Nat := st.map sub_byte

/-- ShiftRows step of `encrypt`: `shifted[i][j] = subbed[(i+j) % 4][j]`,
realized in the source purely by equality copies. -/
def enc_shift_rows (st : List Nat) : List Nat :=
  (List.range 4).flatMap (fun i => (List.range 4).map (fun j => st.getD (4 * ((i + j) % 4) + j) 0))

/-- MixColumns step of `encrypt`: for each word, one `lcon` per matrix row. -/
def enc_mix_columns (st : List Nat) : Option (List Nat) :=
  ((List.range 4).mapM (fun i =>
      mix_matrix.mapM (fun row => lcon ((st.drop (4 * i)).take 4) row))).map List.flatten

/-- One round `r` (1..10) of `encrypt`: SubBytes, ShiftRows, MixColumns
(skipped when `r = 10`), AddRoundKey with `round_keys[r]`. -/
def enc_round (key : List Nat) (r : Nat) (st : List Nat) : Option (List Nat) :=
  let sh := enc_shift_rows (enc_sub_bytes st)
  (if r = 10 then some sh else enc_mix_columns sh).map
    (fun mixed => (List.range 16).map
      (fun t => xor_bytes (mixed.getD t 0) ((round_key key r).getD t 0)))

/-- Initial AddRoundKey of `encrypt`: plaintext XOR `round_keys[0]`. -/
def enc_initial (key pt : List Nat) : List Nat :=
  (List.range 16).map (fun t => xor_bytes (pt.getD t 0) ((round_key key 0).getD t 0))

/-- Value-level embedding of `FixedAes128Config::encrypt` for a key that has
been set: the 16 returned byte values, or `none` if the `lcon` panic branch
were ever reached. -/
def encrypt (key pt : List Nat) : Option (List Nat) :=
  (List.range 10).foldlM (fun st r0 => enc_round key (r0 + 1) st) (enc_initial key pt)

/-- Outcome of running `encrypt` including its precondition handling:
the source first evaluates `self.key.expect("Key should be set")`, which
panics when no key was stored. -/
inductive EncOutcome
  | panic (msg : String)
  | ok (out : List Nat)
deriving DecidableEq

/-- Embedding of `encrypt` as invoked on the configuration: `set_key` stores
`Some key`; without it the `expect` panics before anything is assigned. -/
def encrypt_checked (okey : Option (List Nat)) (pt : List Nat) : EncOutcome :=
  match okey with
  | none => EncOutcome.panic ("Key should be set")
  | some key =>
    match encrypt key pt with
    | some out => EncOutcome.ok out
    | none => EncOutcome.panic ("col should be 1, 2, or 3.")

/-! ## XOR lookup tables (C3)

Three loading routines fill XOR rows:
* `u8_xor_table.rs` `U8XorTableConfig::load` iterates `for i in 0..u8::MAX`
  (exclusive), i.e. `i, j` range over `0..=254`;
* `table/u8_xor.rs` `U8XorTableConfig::load` iterates `0..=u8::MAX`;
* `table.rs` `load_enc_full_table` iterates `0..=u8::MAX` (tagged rows).
Each row is embedded as the triple of cell values assigned at one position,
in assignment order. -/

/-- Rows of `u8_xor_table.rs`'s `U8XorTableConfig::load`: the loop bounds are
`0..u8::MAX`, which in Rust excludes 255. -/
def u8_xor_rows_old : List (Nat × Nat × Nat) :=
  (List.range 255).flatMap (fun i => (List.range 255).map (fun j => (i, j, i ^^^ j)))

/-- Rows of `table/u8_xor.rs`'s `U8XorTableConfig::load`: the loop bounds are
`0..=u8::MAX`. -/
def u8_xor_rows_new : List (Nat × Nat × Nat) :=
  (List.range 256).flatMap (fun i => (List.range 256).map (fun j => (i, j, i ^^^ j)))

/-! ## The shared tagged table (`table.rs`, C7) -/

/-- The `Tag` enum of `table.rs`. -/
def Tag_U8 : Nat := 1
/-- XOR tag. -/
def Tag_Xor : Nat := 2
/-- S-box tag. -/
def Tag_Sbox : Nat := 3
/-- GF mul-by-2 tag. -/
def Tag_GfMul2 : Nat := 4
/-- GF mul-by-3 tag. -/
def Tag_GfMul3 : Nat := 5

/-- A row of the tagged table: the values of the four lookup columns
`(tag, x, y, z)` at one position. -/
abbrev TableRow := Nat × Nat × Nat × Nat

/-- Rows of the first loop of `load_enc_full_table`: u8 range-check rows with
tag `Tag::U8`, x = i, and empty y and z cells. -/
def u8_seg : List TableRow := (List.range 256).map (fun i => (Tag_U8, i, 0, 0))

/-- Rows of the second loop: S-box rows with tag `Tag::Sbox`, input and
output. -/
def sbox_seg : List TableRow := (List.range 256).map (fun i => (Tag_Sbox, i, sub_byte i, 0))

/-- Rows of the third (nested) loop: XOR rows with tag `Tag::Xor`, the row
counter `l` advancing through all pairs (i, j). -/
def xor_seg : List TableRow :=
  (List.range 256).flatMap (fun i => (List.range 256).map (fun j => (Tag_Xor, i, j, i ^^^ j)))

/-- Rows of the fourth loop: GF(2⁸) mul-by-2 rows with tag `Tag::GfMul2`. -/
def mul2_seg : List TableRow := (List.range 256).map (fun i => (Tag_GfMul2, i, mul_by_2 i, 0))

/-- Rows of the fifth loop: GF(2⁸) mul-by-3 rows with tag `Tag::GfMul3`. -/
def mul3_seg : List TableRow := (List.range 256).map (fun i => (Tag_GfMul3, i, mul_by_3 i, 0))

/-- Embedding of `load_enc_full_table`: the rows in position order.  The
source assigns positions contiguously (`pos = offset + i`, `l += 1`, with
`offset` advanced by each segment's row count), so the row at position `p` is
element `p` of this list.  Segment order is as in the source: u8 range rows,
S-box rows, XOR rows, mul-by-2 rows, mul-by-3 rows, one final all-zero
row. -/
def load_enc_full_table : List TableRow :=
  u8_seg ++ sbox_seg ++ xor_seg ++ mul2_seg ++ mul3_seg ++ [(0, 0, 0, 0)]

/-- Spec-side description of the tagged table (claim C7): the expected row at
each position, written from the claim's words — 256 U8 rows (tag 1, x = index,
y = z = 0), then 256 S-box rows (tag 3), then 65,536 XOR rows (tag 2), then
256 mul-by-2 rows (tag 4), then 256 mul-by-3 rows (tag 5), then one all-zero
sentinel row. -/
def spec_table_row (p : Nat) : TableRow :=
  if p < 256 then (1, p, 0, 0)
  else if p < 512 then (3, p - 256, sub_byte (p - 256), 0)
  else if p < 66048 then (2, (p - 512) / 256, (p - 512) % 256, ((p - 512) / 256) ^^^ ((p - 512) % 256))
  else if p < 66304 then (4, p - 66048, mul_by_2 (p - 66048), 0)
  else if p < 66560 then (5, p - 66304, mul_by_3 (p - 66304), 0)
  else (0, 0, 0, 0)

/-! ## Witness-generation traces

The assignment calls of `schedule_keys` and `encrypt` are embedded as lists
of operations.  Copy operations record the source column (the cell handle's
column) and the copied value; rows are region-relative offsets exactly as in
the source. -/

/-- Advice columns of the key-schedule chip. -/
inductive KsCol
  | words
  | subBytesCol
  | rotCol
  | rconCol
deriving DecidableEq

/-- All advice columns appearing in the embedded traces. -/
inductive AdvCol
  | ks (c : KsCol)
  | encWords
deriving DecidableEq

/-- Selectors of the two configs. -/
inductive SelId
  | qRoundFirst
  | qRoundMid
  | qSubBytesKs
  | qRot
  | qXorBytes
  | qXorAdj
  | qSubBytesEnc
  | qMulBy2
  | qMulBy3
deriving DecidableEq

/-- One witness-generation operation. -/
inductive Op
  | assignAdvice (c : AdvCol) (row : Nat) (v : Nat)
  | copyAdvice (src : AdvCol) (c : AdvCol) (row : Nat) (v : Nat)
  | assignFixed (row : Nat) (v : Nat)
  | enableSel (s : SelId) (row : Nat)
deriving DecidableEq

/-- Operations of one iteration of the `for i in 4..44` loop of
`schedule_keys` (at `i = ws.length`, region offset `pos = i * 4`), in source
order.  In the `i % 4 == 0` branch: enable `q_round_first`, enable
`q_sub_bytes` on the four bytes, assign the rotated word to the rot column,
the substituted word to the sub-bytes column, the round constant to the fixed
column, the rcon-word to the rcon column, and the new word to the words
column.  Note that every word-building operation is `assign_advice`: the
source never calls `copy_advice` here and never enables `q_rot`. -/
def next_word_ops (ws : List (List Nat)) : List Op :=
  let i := ws.length
  let pos := i * 4
  let word := next_word ws
  if i % 4 = 0 then
    let rotated := rotate_word (ws.getD (i - 1) [])
    let subbed := sub_word rotated
    let rc := get_round_constant (i / 4 - 1)
    let rc_byte := xor_bytes rc (subbed.getD 0 0)
    let rconned := rc_byte :: subbed.drop 1
    [Op.enableSel SelId.qRoundFirst pos]
      ++ (List.range 4).map (fun l => Op.enableSel SelId.qSubBytesKs (pos + l))
      ++ (List.range 4).map (fun j => Op.assignAdvice (AdvCol.ks KsCol.rotCol) (pos + j) (rotated.getD j 0))
      ++ (List.range 4).map (fun j => Op.assignAdvice (AdvCol.ks KsCol.subBytesCol) (pos + j) (subbed.getD j 0))
      ++ [Op.assignFixed pos rc]
      ++ (List.range 4).map (fun j => Op.assignAdvice (AdvCol.ks KsCol.rconCol) (pos + j) (rconned.getD j 0))
      ++ (List.range 4).map (fun j => Op.assignAdvice (AdvCol.ks KsCol.words) (pos + j) (word.getD j 0))
  else
    [Op.enableSel SelId.qRoundMid pos]
      ++ (List.range 4).map (fun j => Op.assignAdvice (AdvCol.ks KsCol.words) (pos + j) (word.getD j 0))

/-- Trace of `schedule_keys` (one region): the 16 round-0 assignments — with
the source's `key[i * 4 + 1]` indexing — followed by the 40 loop iterations.
At iteration `i` (4..43) the words accumulated so far are the first `i`
entries of `schedule_words key` (the fold only ever appends), so the step's
operations are `next_word_ops` of that prefix. -/
def ks_trace (key : List Nat) : List Op :=
  (List.range 4).flatMap (fun i => (List.range 4).map (fun j =>
      Op.assignAdvice (AdvCol.ks KsCol.words) (i * 4 + j) (key.getD (i * 4 + 1) 0)))
    ++ (List.range 40).flatMap (fun t => next_word_ops (schedule_words_upto key t))

/-- The fixed-column assignments of a trace: their (row, value) pairs. -/
def fixed_assigns (ops : List Op) : List (Nat × Nat) :=
  ops.filterMap (fun op =>
    match op with
    | Op.assignFixed row v => some (row, v)
    | _ => none)

/-- Is this operation a plain advice assignment into the rot column? -/
def is_rot_assign (op : Op) : Bool :=
  match op with
  | Op.assignAdvice (AdvCol.ks KsCol.rotCol) _ _ => true
  | _ => false

/-- Is this operation an equality copy into the rot column? -/
def is_rot_copy (op : Op) : Bool :=
  match op with
  | Op.copyAdvice _ (AdvCol.ks KsCol.rotCol) _ _ => true
  | _ => false

/-- Does this operation enable the `q_rot` selector of the Rotate-word gate? -/
def is_rot_enable (op : Op) : Bool :=
  match op with
  | Op.enableSel SelId.qRot _ => true
  | _ => false

/-- Is this operation an advice assignment into the key schedule's words
column (the column holding the scheduled round-key bytes)? -/
def is_ks_words_assign (op : Op) : Bool :=
  match op with
  | Op.assignAdvice (AdvCol.ks KsCol.words) _ _ => true
  | _ => false

/-- Is this operation an equality copy whose source cell lives in the key
schedule's words column (a round-key consumption)? -/
def is_ks_words_copy (op : Op) : Bool :=
  match op with
  | Op.copyAdvice (AdvCol.ks KsCol.words) _ _ _ => true
  | _ => false

/-- The four initial AddRoundKey regions of `encrypt` (one per word `i`,
region offset `i` is irrelevant, rows restart at `offset = i * 12`... the
source uses one region per `i` with `offset = i * 12` inside): enable
`q_xor_bytes`, assign the plaintext byte, copy the round-key byte from the
scheduled keys, assign the XOR value. -/
def enc_ark0_regions (key pt : List Nat) : List (List Op) :=
  (List.range 4).map (fun i => (List.range 4).flatMap (fun j =>
    [Op.enableSel SelId.qXorBytes (i * 12 + j),
     Op.assignAdvice AdvCol.encWords (i * 12 + j) (pt.getD (i * 4 + j) 0),
     Op.copyAdvice (AdvCol.ks KsCol.words) AdvCol.encWords (i * 12 + 4 + j)
       ((round_key key 0).getD (i * 4 + j) 0),
     Op.assignAdvice AdvCol.encWords (i * 12 + 8 + j)
       (xor_bytes (pt.getD (i * 4 + j) 0) ((round_key key 0).getD (i * 4 + j) 0))]))

/-- The coefficient-dispatch part of `lcon` as a trace: for each byte and
coefficient, a copy for coefficient 1, or selector + copy + table-output
assignment for 2 and 3, with the source's running `internal_offset`.
Accumulator: operations so far, the `tmp` values, the internal offset. -/
def lcon_dispatch (o : Nat) (pairs : List (Nat × Nat)) : List Op × List Nat × Nat :=
  pairs.foldl
    (fun acc bc =>
      match bc.2 with
      | 1 => (acc.1 ++ [Op.copyAdvice AdvCol.encWords AdvCol.encWords (o + acc.2.2) bc.1],
              acc.2.1 ++ [bc.1], acc.2.2 + 1)
      | 2 => (acc.1 ++ [Op.enableSel SelId.qMulBy2 (o + acc.2.2),
                Op.copyAdvice AdvCol.encWords AdvCol.encWords (o + acc.2.2) bc.1,
                Op.assignAdvice AdvCol.encWords (o + acc.2.2 + 1) (mul_by_2 bc.1)],
              acc.2.1 ++ [mul_by_2 bc.1], acc.2.2 + 2)
      | 3 => (acc.1 ++ [Op.enableSel SelId.qMulBy3 (o + acc.2.2),
                Op.copyAdvice AdvCol.encWords AdvCol.encWords (o + acc.2.2) bc.1,
                Op.assignAdvice AdvCol.encWords (o + acc.2.2 + 1) (mul_by_3 bc.1)],
              acc.2.1 ++ [mul_by_3 bc.1], acc.2.2 + 2)
      | _ => acc)
    ([], [], 0)

/-- Full trace of one `lcon` call at region offset `o`: the dispatch followed
by the three adjacent-XOR combinations, exactly in source order. -/
def lcon_ops (o : Nat) (word coeffs : List Nat) : List Op :=
  let d := lcon_dispatch o (word.zip coeffs)
  let tmp := d.2.1
  let io := d.2.2
  let i0 := xor_bytes (tmp.getD 0 0) (tmp.getD 1 0)
  let i1 := xor_bytes (tmp.getD 2 0) (tmp.getD 3 0)
  d.1 ++
    [Op.enableSel SelId.qXorAdj (o + io),
     Op.copyAdvice AdvCol.encWords AdvCol.encWords (o + io) (tmp.getD 0 0),
     Op.copyAdvice AdvCol.encWords AdvCol.encWords (o + io + 1) (tmp.getD 1 0),
     Op.assignAdvice AdvCol.encWords (o + io + 2) i0,
     Op.enableSel SelId.qXorAdj (o + io + 3),
     Op.copyAdvice AdvCol.encWords AdvCol.encWords (o + io + 3) (tmp.getD 2 0),
     Op.copyAdvice AdvCol.encWords AdvCol.encWords (o + io + 4) (tmp.getD 3 0),
     Op.enableSel SelId.qXorAdj (o + io + 5),
     Op.assignAdvice AdvCol.encWords (o + io + 5) i1,
     Op.copyAdvice AdvCol.encWords AdvCol.encWords (o + io + 6) i0,
     Op.assignAdvice AdvCol.encWords (o + io + 7) (xor_bytes i0 i1)]

/-- Trace of one round region of `encrypt` (round `r`, input state `st`):
SubBytes (selector + copy per byte, then the four substituted assignments per
word), ShiftRows (pure copies from offset 32), MixColumns (16 `lcon` calls of
14 rows each, skipped in round 10), AddRoundKey (as in the initial region,
from offset 48 or 272). -/
def enc_round_region_ops (key : List Nat) (r : Nat) (st : List Nat) : List Op :=
  let sb := enc_sub_bytes st
  let sh := enc_shift_rows sb
  let sub_ops := (List.range 4).flatMap (fun w =>
    (List.range 4).flatMap (fun b =>
      [Op.enableSel SelId.qSubBytesEnc (8 * w + b),
       Op.copyAdvice AdvCol.encWords AdvCol.encWords (8 * w + b) (st.getD (4 * w + b) 0)])
    ++ (List.range 4).map (fun b =>
      Op.assignAdvice AdvCol.encWords (8 * w + 4 + b) (sb.getD (4 * w + b) 0)))
  let shift_ops := (List.range 4).flatMap (fun i => (List.range 4).map (fun j =>
    Op.copyAdvice AdvCol.encWords AdvCol.encWords (32 + 4 * i + j)
      (sb.getD (4 * ((i + j) % 4) + j) 0)))
  let mix_ops := if r = 10 then [] else
    (List.range 4).flatMap (fun i => (List.range 4).flatMap (fun k =>
      lcon_ops (48 + (4 * i + k) * 14) ((sh.drop (4 * i)).take 4) (mix_matrix.getD k [])))
  let mixed := if r = 10 then sh else (enc_mix_columns sh).getD []
  let ao := if r = 10 then 48 else 272
  let ark_ops := (List.range 4).flatMap (fun i => (List.range 4).flatMap (fun j =>
    [Op.enableSel SelId.qXorBytes (ao + 12 * i + j),
     Op.assignAdvice AdvCol.encWords (ao + 12 * i + j) (mixed.getD (4 * i + j) 0),
     Op.copyAdvice (AdvCol.ks KsCol.words) AdvCol.encWords (ao + 12 * i + 4 + j)
       ((round_key key r).getD (4 * i + j) 0),
     Op.assignAdvice AdvCol.encWords (ao + 12 * i + 8 + j)
       (xor_bytes (mixed.getD (4 * i + j) 0) ((round_key key r).getD (4 * i + j) 0))]))
  sub_ops ++ shift_ops ++ mix_ops ++ ark_ops

/-- State of `encrypt` entering round `r0 + 1` (so `enc_state key pt 0` is
the output of the initial AddRoundKey). -/
def enc_state (key pt : List Nat) : Nat → List Nat
  | 0 => enc_initial key pt
  | r0 + 1 => (enc_round key (r0 + 1) (enc_state key pt r0)).getD []

/-- The regions assigned by one `encrypt` call: the `schedule_keys` region
(re-run inside `encrypt` on every call), the four initial AddRoundKey
regions, and one region per round 1..10. -/
def enc_regions (key pt : List Nat) : List (List Op) :=
  [ks_trace key] ++ enc_ark0_regions key pt ++
    (List.range 10).map (fun r0 => enc_round_region_ops key (r0 + 1) (enc_state key pt r0))

/-- All operations of one `encrypt` call, in order. -/
def enc_trace (key pt : List Nat) : List Op := (enc_regions key pt).flatten

/-- Operations of an `encrypt` call including the key precondition: when the
key is unset, `self.key.expect(..)` panics before any region is entered, so
nothing is assigned. -/
def enc_trace_checked (okey : Option (List Nat)) (pt : List Nat) : List Op :=
  match okey with
  | none => []
  | some key => enc_trace key pt

/-! ## Column-group scheduler (claim C5)

Modelled from the spec: the `(K, N)` generic `FixedAes128Config` that
`main.rs` instantiates is not under src/ (only its caller is).  Spec §4.5:
each of the `N` column groups has a `2^K` row budget; `KEY_SCHEDULE_ROWS` is
deducted from group 0's budget once; before each `encrypt` call, if the
active group's remaining rows are at least `AES_ROWS` the call stays in the
group and increments its block counter, else if the active group index is
below `N - 1` it advances to the next group and resets the counter (the block
proceeding in the new group), else the call fails with capacity
exhaustion. -/

structure SchedState where
  groupIdx : Nat
  blocks : Nat
deriving DecidableEq, Repr

/-- Row budget of group `g`: `2^K`, minus `KEY_SCHEDULE_ROWS` for group 0. -/
def group_budget (k ks g : Nat) : Nat := if g = 0 then 2 ^ k - ks else 2 ^ k

/-- One `encrypt` admission decision (spec §4.5); `none` is the capacity
exhaustion failure. -/
def sched_step (k n ks aes : Nat) (s : SchedState) : Option SchedState :=
  if aes ≤ group_budget k ks s.groupIdx - s.blocks * aes then
    some { groupIdx := s.groupIdx, blocks := s.blocks + 1 }
  else if s.groupIdx < n - 1 then
    some { groupIdx := s.groupIdx + 1, blocks := 1 }
  else
    none

/-- Scheduler state after `m` further `encrypt` calls starting from state
`s`; `none` once any call has failed. -/
def sched_iter (k n ks aes : Nat) (s : SchedState) : Nat → Option SchedState
  | 0 => some s
  | m + 1 => (sched_iter k n ks aes s m).bind (sched_step k n ks aes)

/-- Scheduler state after `m` `encrypt` calls starting from the fresh
per-proof state. -/
def sched_run (k n ks aes : Nat) (m : Nat) : Option SchedState :=
  sched_iter k n ks aes { groupIdx := 0, blocks := 0 } m

/-- Number of `encrypt` calls the modelled scheduler admits:
`⌊(2^K − KS_ROWS) / AES_ROWS⌋` in group 0 plus `⌊2^K / AES_ROWS⌋` in each of
the other `N − 1` groups. -/
def sched_capacity (k n ks aes : Nat) : Nat :=
  (2 ^ k - ks) / aes + (n - 1) * (2 ^ k / aes)

/-! ## Theorems for the claims -/

/-- The all-zero 16-byte block. -/
def zero_block : List Nat := List.replicate 16 0

/-- Helper: length of a flatMap whose pieces all have the same length. -/
theorem length_flatMap_const {α β : Type} (l : List α) (f : α → List β) (n : Nat)
    (h : ∀ a ∈ l, (f a).length = n) : (l.flatMap f).length = l.length * n := by
  induction l with
  | nil => simp
  | cons a t ih =>
    rw [List.flatMap_cons, List.length_append, h a (by simp),
      ih (fun b hb => h b (by simp [hb])), List.length_cons, Nat.succ_mul, Nat.add_comm]

/-- Helper: flatMap respects pointwise equality on the list. -/
theorem flatMap_congr_mem {α β : Type} {l : List α} {f g : α → List β}
    (h : ∀ a ∈ l, f a = g a) : l.flatMap f = l.flatMap g := by
  induction l with
  | nil => rfl
  | cons a t ih =>
    rw [List.flatMap_cons, List.flatMap_cons, h a (by simp),
      ih (fun b hb => h b (by simp [hb]))]

/-- Helper: filterMap distributes over flatMap. -/
theorem filterMap_flatMap {α β γ : Type} (l : List α) (f : α → List β) (g : β → Option γ) :
    (l.flatMap f).filterMap g = l.flatMap (fun a => (f a).filterMap g) := by
  induction l with
  | nil => rfl
  | cons a t ih => rw [List.flatMap_cons, List.flatMap_cons, List.filterMap_append, ih]

/-- Helper: filter distributes over flatMap. -/
theorem filter_flatMap {α β : Type} (l : List α) (f : α → List β) (p : β → Bool) :
    (l.flatMap f).filter p = l.flatMap (fun a => (f a).filter p) := by
  induction l with
  | nil => rfl
  | cons a t ih => rw [List.flatMap_cons, List.flatMap_cons, List.filter_append, ih]

/-- Helper: after `t` loop iterations there are `t + 4` words. -/
theorem schedule_words_upto_length (key : List Nat) (t : Nat) :
    (schedule_words_upto key t).length = t + 4 := by
  induction t with
  | zero => rfl
  | succ t ih => simp [schedule_words_upto, ih]

/-- Helper: the scheduled-word list has 44 entries. -/
theorem schedule_words_length (key : List Nat) : (schedule_words key).length = 44 :=
  schedule_words_upto_length key 40

/-- Helper: the fixed-column assignments of one word-loop iteration — the
round constant of index `i / 4 - 1` at row `i * 4` when `i % 4 = 0`, nothing
otherwise. -/
theorem fixed_assigns_next_word_ops (ws : List (List Nat)) :
    fixed_assigns (next_word_ops ws) =
      if ws.length % 4 = 0 then
        [(ws.length * 4, get_round_constant (ws.length / 4 - 1))]
      else [] := by
  simp only [next_word_ops, fixed_assigns]
  rw [show List.range 4 = [0, 1, 2, 3] from rfl]
  by_cases h : ws.length % 4 = 0 <;> simp [h]

/-- Helper: for every key, the fixed-column assignments of the
`schedule_keys` trace are the ten round constants, constant index r at row
16·(r+1). -/
theorem fixed_assigns_ks_trace (key : List Nat) :
    fixed_assigns (ks_trace key) =
      [(16, 1), (32, 2), (48, 4), (64, 8), (80, 16),
       (96, 32), (112, 64), (128, 128), (144, 27), (160, 54)] := by
  rw [ks_trace]
  simp only [fixed_assigns] at *
  rw [List.filterMap_append, filterMap_flatMap, filterMap_flatMap]
  have h0 : ∀ i ∈ List.range 4,
      ((List.range 4).map (fun j =>
        Op.assignAdvice (AdvCol.ks KsCol.words) (i * 4 + j) (key.getD (i * 4 + 1) 0))).filterMap
        (fun op => match op with | Op.assignFixed row v => some (row, v) | _ => none) = [] := by
    intro i _
    simp
  have h1 : ∀ t ∈ List.range 40,
      (next_word_ops (schedule_words_upto key t)).filterMap
        (fun op => match op with | Op.assignFixed row v => some (row, v) | _ => none) =
        if (t + 4) % 4 = 0 then
          [((t + 4) * 4, get_round_constant ((t + 4) / 4 - 1))]
        else [] := by
    intro t _
    have := fixed_assigns_next_word_ops (schedule_words_upto key t)
    simp only [fixed_assigns] at this
    rw [this, schedule_words_upto_length]
  rw [flatMap_congr_mem h0, flatMap_congr_mem h1]
  decide

/-- C1: the claim that `encrypt` returns the reference AES-128 ciphertext for
every key fails on the code: `schedule_keys` loads round-0 byte `(i, j)` from
`key[4*i + 1]` instead of `key[4*i + j]`, and `encrypt` consumes that
schedule.  This theorem evaluates the code at the claim's own instance and at
a failing input: with the all-zero key and plaintext the returned bytes are
66E94BD4EF8A2C3B884CFA59CA342B2E (the slip is invisible for keys constant
within each word), but for the key 000100…00 the returned bytes differ from
the reference AES-128 encryption. -/
theorem c1_encrypt_zero_vector_but_reference_divergence :
    encrypt zero_block zero_block =
      some [0x66, 0xE9, 0x4B, 0xD4, 0xEF, 0x8A, 0x2C, 0x3B,
            0x88, 0x4C, 0xFA, 0x59, 0xCA, 0x34, 0x2B, 0x2E] ∧
    encrypt [0, 1, 0, 0, 0, 0, 0, 0, 0, 0, 0, 0, 0, 0, 0, 0] zero_block ≠
      some (ref_aes128_encrypt [0, 1, 0, 0, 0, 0, 0, 0, 0, 0, 0, 0, 0, 0, 0, 0] zero_block) := by
  constructor
  · decide
  · decide

/-- C2: the claim that `schedule_keys` produces the FIPS-197 expansion, with
round 0 equal to the 16 input key bytes in order, fails on the code: with the
key 000102…0F, round-0 word 0 comes out as [1, 1, 1, 1] (four copies of
`key[1]`) instead of [0, 1, 2, 3], and the 44 words differ from the reference
expansion.  For the all-zero key (the only key the repository's test uses)
the schedule agrees with the reference, starting 00000000 ×4, 62636363. -/
theorem c2_schedule_keys_round0_indexing_bug :
    (schedule_words [0, 1, 2, 3, 4, 5, 6, 7, 8, 9, 10, 11, 12, 13, 14, 15]).getD 0 [] =
      [1, 1, 1, 1] ∧
    schedule_words [0, 1, 2, 3, 4, 5, 6, 7, 8, 9, 10, 11, 12, 13, 14, 15] ≠
      fips_words [0, 1, 2, 3, 4, 5, 6, 7, 8, 9, 10, 11, 12, 13, 14, 15] ∧
    schedule_words zero_block = fips_words zero_block ∧
    (schedule_words zero_block).getD 4 [] = [0x62, 0x63, 0x63, 0x63] := by
  refine ⟨by decide, by decide, by decide, by decide⟩

/-- C3: the claim that every XOR lookup-table loading routine covers all
pairs (i, j) with i, j in 0..=255 (65,536 rows) fails for
`u8_xor_table.rs`'s `U8XorTableConfig::load`: its loops run over
`0..u8::MAX`, which excludes 255, so it assigns only 65,025 rows, every one
with both operands at most 254, and in particular no row for the pair
(255, 0).  The other two routines (`table/u8_xor.rs` and `table.rs`'s
`load_enc_full_table`) do assign all 65,536 rows. -/
theorem c3_xor_table_misses_byte_255 :
    u8_xor_rows_old.length = 65025 ∧
    u8_xor_rows_old.all (fun r => r.1 ≤ 254 && r.2.1 ≤ 254) = true ∧
    (255, 0, 255) ∉ u8_xor_rows_old ∧
    u8_xor_rows_new.length = 65536 ∧
    (255, 0, 255) ∈ u8_xor_rows_new ∧
    (Tag_Xor, 255, 0, 255) ∈ load_enc_full_table := by
  refine ⟨?_, ?_, ?_, ?_, ?_, ?_⟩
  · rw [u8_xor_rows_old, length_flatMap_const _ _ 255 (fun a _ => by simp)]
    simp
  · rw [List.all_eq_true]
    intro x hx
    simp only [u8_xor_rows_old, List.mem_flatMap, List.mem_map, List.mem_range] at hx
    obtain ⟨i, hi, j, hj, rfl⟩ := hx
    simp only [Bool.and_eq_true, decide_eq_true_eq]
    omega
  · intro h
    simp only [u8_xor_rows_old, List.mem_flatMap, List.mem_map, List.mem_range] at h
    obtain ⟨i, hi, j, hj, heq⟩ := h
    rw [Prod.ext_iff, Prod.ext_iff] at heq
    omega
  · rw [u8_xor_rows_new, length_flatMap_const _ _ 256 (fun a _ => by simp)]
    simp
  · simp only [u8_xor_rows_new, List.mem_flatMap, List.mem_map, List.mem_range]
    exact ⟨255, by omega, 0, by omega, by decide⟩
  · rw [load_enc_full_table]
    have hx : (Tag_Xor, 255, 0, 255) ∈ xor_seg := by
      rw [xor_seg]
      exact List.mem_flatMap.mpr ⟨255, by simp, List.mem_map.mpr ⟨0, by simp, by decide⟩⟩
    exact List.mem_append_left _ (List.mem_append_left _
      (List.mem_append_left _ (List.mem_append_right _ hx)))

/-- Helper: length of a flatMap as the sum of the piece lengths. -/
theorem length_flatMap_sum {α β : Type} (l : List α) (f : α → List β) :
    (l.flatMap f).length = (l.map (fun a => (f a).length)).sum := by
  induction l with
  | nil => rfl
  | cons a t ih => simp [List.flatMap_cons, ih]

/-- Helper: filtered length of one word-loop iteration for the rot-column
predicates: a first-word iteration assigns the rot column four times and
never copies into it nor enables `q_rot`; a mid-word iteration touches the
rot column not at all. -/
theorem rot_ops_next_word (ws : List (List Nat)) :
    ((next_word_ops ws).filter is_rot_copy).length = 0 ∧
    ((next_word_ops ws).filter is_rot_enable).length = 0 ∧
    ((next_word_ops ws).filter is_rot_assign).length = (if ws.length % 4 = 0 then 4 else 0) := by
  simp only [next_word_ops]
  rw [show List.range 4 = [0, 1, 2, 3] from rfl]
  by_cases h : ws.length % 4 = 0 <;>
    simp [h, is_rot_copy, is_rot_enable, is_rot_assign]

/-- Helper: filtered length of the whole `schedule_keys` trace, computed from
the round-0 block and the 40 loop iterations. -/
theorem ks_trace_filter_length (key : List Nat) (p : Op → Bool) :
    ((ks_trace key).filter p).length =
      ((List.range 4).map (fun i => (((List.range 4).map (fun j =>
          Op.assignAdvice (AdvCol.ks KsCol.words) (i * 4 + j) (key.getD (i * 4 + 1) 0))).filter p).length)).sum +
      ((List.range 40).map (fun t =>
          ((next_word_ops (schedule_words_upto key t)).filter p).length)).sum := by
  rw [ks_trace, List.filter_append, List.length_append, filter_flatMap, filter_flatMap,
    length_flatMap_sum, length_flatMap_sum]

/-- C4 counterexample: in the trace of `schedule_keys` on the all-zero key,
the rot-column cells of the rotation step are populated by 40 plain
`assign_advice` operations and by no equality copy at all — in particular the
round-1 rotated word's first byte at row 16 is a plain assignment — so the
rotated word is not "realized entirely by equality copies from the previous
word's assigned cells". -/
theorem c4_counterexample_rotation_not_copied :
    ((ks_trace zero_block).filter is_rot_copy).length = 0 ∧
    ((ks_trace zero_block).filter is_rot_assign).length = 40 ∧
    Op.assignAdvice (AdvCol.ks KsCol.rotCol) 16 0 ∈ ks_trace zero_block := by
  refine ⟨by decide, by decide, by decide⟩

/-- C4 amended: for every key, the rotated word of each of the ten first-word
steps is realized by direct `assign_advice` of the out-of-circuit rotated
values into the rot column (4 assignments per step, 40 in total); the trace
contains no equality copy into the rot column and never enables the `q_rot`
selector of the Rotate-word gate declared in `configure`, so neither copy
constraints nor that gate bind the rot cells to the previous word. -/
theorem c4_rotation_by_plain_assignment (key : List Nat) :
    ((ks_trace key).filter is_rot_copy).length = 0 ∧
    ((ks_trace key).filter is_rot_enable).length = 0 ∧
    ((ks_trace key).filter is_rot_assign).length = 40 := by
  have hzero : ∀ i ∈ List.range 4, (((List.range 4).map (fun j =>
      Op.assignAdvice (AdvCol.ks KsCol.words) (i * 4 + j) (key.getD (i * 4 + 1) 0))).filter
        is_rot_copy).length = 0 ∧
      (((List.range 4).map (fun j =>
      Op.assignAdvice (AdvCol.ks KsCol.words) (i * 4 + j) (key.getD (i * 4 + 1) 0))).filter
        is_rot_enable).length = 0 ∧
      (((List.range 4).map (fun j =>
      Op.assignAdvice (AdvCol.ks KsCol.words) (i * 4 + j) (key.getD (i * 4 + 1) 0))).filter
        is_rot_assign).length = 0 := by
    intro i _
    rw [show List.range 4 = [0, 1, 2, 3] from rfl]
    simp [is_rot_copy, is_rot_enable, is_rot_assign]
  refine ⟨?_, ?_, ?_⟩
  · rw [ks_trace_filter_length key is_rot_copy,
      List.map_congr_left (fun i hi => (hzero i hi).1),
      List.map_congr_left (fun t _ => (rot_ops_next_word (schedule_words_upto key t)).1)]
    decide
  · rw [ks_trace_filter_length key is_rot_enable,
      List.map_congr_left (fun i hi => (hzero i hi).2.1),
      List.map_congr_left (fun t _ => (rot_ops_next_word (schedule_words_upto key t)).2.1)]
    decide
  · have hstep : ∀ t ∈ List.range 40,
        ((next_word_ops (schedule_words_upto key t)).filter is_rot_assign).length =
          (if (t + 4) % 4 = 0 then 4 else 0) := by
      intro t _
      rw [(rot_ops_next_word (schedule_words_upto key t)).2.2, schedule_words_upto_length]
    rw [ks_trace_filter_length key is_rot_assign,
      List.map_congr_left (fun i hi => (hzero i hi).2.2),
      List.map_congr_left hstep]
    decide

/-- Helper: filtered length of a flattened region list, region by region. -/
theorem filter_flatten_length {α : Type} (p : α → Bool) (rs : List (List α)) :
    ((rs.flatten).filter p).length = (rs.map (fun ops => (ops.filter p).length)).sum := by
  induction rs with
  | nil => rfl
  | cons r t ih =>
    rw [List.flatten_cons, List.filter_append, List.length_append, ih,
      List.map_cons, List.sum_cons]

/-- Helper: one `encrypt` call assigns the key schedule's words column 176
times (16 round-0 bytes plus 40 words of 4 bytes — the whole round-key
table). -/
theorem enc_trace_ks_assign_count :
    ((enc_trace zero_block zero_block).filter is_ks_words_assign).length = 176 := by
  rw [enc_trace, filter_flatten_length]
  decide

/-- Helper: one `encrypt` call copies round-key bytes out of the key
schedule's words column 176 times (16 bytes in each of the 11 AddRoundKey
applications). -/
theorem enc_trace_ks_copy_count :
    ((enc_trace zero_block zero_block).filter is_ks_words_copy).length = 176 := by
  rw [enc_trace, filter_flatten_length]
  decide

/-- C6 counterexample: the round-key byte cells are not created exactly once
per proof — every `encrypt` call re-runs `schedule_keys` itself, so a proof
with two `encrypt` calls assigns the key schedule's words column 352 times
(176 cells twice), not 176 times. -/
theorem c6_counterexample_roundkeys_reassigned :
    ((enc_trace zero_block zero_block ++ enc_trace zero_block zero_block).filter
      is_ks_words_assign).length = 352 := by
  rw [List.filter_append, List.length_append, enc_trace_ks_assign_count]

/-- C6 amended: each `encrypt` call creates the full 176-byte round-key
assignment anew (it invokes `schedule_keys` itself) and consumes round-key
bytes through 176 equality copies within that call; across m calls in one
proof the round-key cells are assigned 176·m times rather than once. -/
theorem c6_roundkeys_recreated_per_call (m : Nat) :
    (((List.replicate m (enc_trace zero_block zero_block)).flatten).filter
      is_ks_words_assign).length = 176 * m ∧
    (((List.replicate m (enc_trace zero_block zero_block)).flatten).filter
      is_ks_words_copy).length = 176 * m := by
  induction m with
  | zero => exact ⟨rfl, rfl⟩
  | succ m ih =>
    rw [List.replicate_succ, List.flatten_cons, List.filter_append, List.filter_append,
      List.length_append, List.length_append, ih.1, ih.2,
      enc_trace_ks_assign_count, enc_trace_ks_copy_count]
    omega

/-- Helper: splitting a scheduler iteration. -/
theorem sched_iter_add (k n ks aes : Nat) (s : SchedState) (a b : Nat) :
    sched_iter k n ks aes s (a + b) =
      (sched_iter k n ks aes s a).bind (fun t => sched_iter k n ks aes t b) := by
  induction b with
  | zero =>
    rw [Nat.add_zero]
    cases h : sched_iter k n ks aes s a <;> rfl
  | succ b ih =>
    rw [Nat.add_succ]
    show (sched_iter k n ks aes s (a + b)).bind (sched_step k n ks aes) = _
    rw [ih, Option.bind_assoc]
    rfl

/-- Helper: while a group still has room, each call stays in the group and
increments the block counter. -/
theorem sched_iter_stay (k n ks aes : Nat) (g u j : Nat)
    (h : (u + j) * aes ≤ group_budget k ks g) :
    sched_iter k n ks aes { groupIdx := g, blocks := u } j =
      some { groupIdx := g, blocks := u + j } := by
  induction j with
  | zero => rfl
  | succ j ih =>
    have hmul : (u + (j + 1)) * aes = (u + j) * aes + aes := by ring
    have hj : (u + j) * aes ≤ group_budget k ks g :=
      le_trans (by omega) h
    show (sched_iter k n ks aes { groupIdx := g, blocks := u } j).bind
        (sched_step k n ks aes) = _
    rw [ih hj]
    have hfit : aes ≤ group_budget k ks g - (u + j) * aes := by omega
    simp [sched_step, hfit]
    omega

/-- Helper: a call arriving at a group whose block counter has exhausted the
budget either advances to the next group or fails. -/
theorem sched_step_full (k n ks aes : Nat) (haes : 0 < aes) (g : Nat) :
    sched_step k n ks aes { groupIdx := g, blocks := group_budget k ks g / aes } =
      (if g < n - 1 then some { groupIdx := g + 1, blocks := 1 } else none) := by
  have hdm := Nat.div_add_mod (group_budget k ks g) aes
  have hlt : group_budget k ks g % aes < aes := Nat.mod_lt _ haes
  have hfull : ¬ aes ≤ group_budget k ks g - group_budget k ks g / aes * aes := by
    rw [Nat.mul_comm] at hdm
    omega
  simp [sched_step, hfull]

/-- Helper: after filling the first `g + 1` groups the scheduler has admitted
`⌊(2^K − KS_ROWS)/AES_ROWS⌋ + g·⌊2^K/AES_ROWS⌋` calls and sits in group `g`
with a full block counter. -/
theorem sched_run_groups (k n ks aes : Nat) (haes : 0 < aes) (hle : aes ≤ 2 ^ k) :
    ∀ g, g < n →
      sched_run k n ks aes ((2 ^ k - ks) / aes + g * (2 ^ k / aes)) =
        some { groupIdx := g,
               blocks := if g = 0 then (2 ^ k - ks) / aes else 2 ^ k / aes } := by
  intro g
  induction g with
  | zero =>
    intro _
    have h0 : (0 + (2 ^ k - ks) / aes) * aes ≤ group_budget k ks 0 := by
      simp [group_budget]
      exact Nat.div_mul_le_self _ _
    have := sched_iter_stay k n ks aes 0 0 ((2 ^ k - ks) / aes) h0
    simpa [sched_run] using this
  | succ g ih =>
    intro hgn
    have hg : g < n := by omega
    have prev := ih hg
    have hcapG : 1 ≤ 2 ^ k / aes := (Nat.one_le_div_iff haes).mpr hle
    have hb : (if g = 0 then (2 ^ k - ks) / aes else 2 ^ k / aes) =
        group_budget k ks g / aes := by
      by_cases h : g = 0 <;> simp [group_budget, h]
    have hsplit : (2 ^ k - ks) / aes + (g + 1) * (2 ^ k / aes) =
        ((2 ^ k - ks) / aes + g * (2 ^ k / aes)) + (1 + (2 ^ k / aes - 1)) := by
      have : (g + 1) * (2 ^ k / aes) = g * (2 ^ k / aes) + 2 ^ k / aes := by ring
      omega
    rw [sched_run, hsplit, sched_iter_add]
    rw [show sched_iter k n ks aes { groupIdx := 0, blocks := 0 }
        ((2 ^ k - ks) / aes + g * (2 ^ k / aes)) =
        sched_run k n ks aes ((2 ^ k - ks) / aes + g * (2 ^ k / aes)) from rfl, prev]
    show (sched_iter k n ks aes _ (1 + (2 ^ k / aes - 1))) = _
    rw [sched_iter_add]
    have hone : sched_iter k n ks aes
        { groupIdx := g, blocks := if g = 0 then (2 ^ k - ks) / aes else 2 ^ k / aes } 1 =
        some { groupIdx := g + 1, blocks := 1 } := by
      show (sched_iter k n ks aes _ 0).bind (sched_step k n ks aes) = _
      rw [hb]
      show sched_step k n ks aes { groupIdx := g, blocks := group_budget k ks g / aes } = _
      rw [sched_step_full k n ks aes haes g, if_pos (by omega)]
    rw [hone]
    have hstay : (1 + (2 ^ k / aes - 1)) * aes ≤ group_budget k ks (g + 1) := by
      have h1 : 1 + (2 ^ k / aes - 1) = 2 ^ k / aes := by omega
      rw [h1]
      simp [group_budget]
      exact Nat.div_mul_le_self _ _
    show sched_iter k n ks aes { groupIdx := g + 1, blocks := 1 } (2 ^ k / aes - 1) = _
    have := sched_iter_stay k n ks aes (g + 1) 1 (2 ^ k / aes - 1) hstay
    rw [this]
    have : 1 + (2 ^ k / aes - 1) = 2 ^ k / aes := by omega
    simp [this]

/-- C5 counterexample: with the modelled scheduler (per spec §4.5) at
parameters K = 10, N = 4, KS_ROWS = 150, AES_ROWS = 100, the call right
after N·⌊(2^K − KS_ROWS)/AES_ROWS⌋ = 32 calls still succeeds (groups 1..3
have a full 2^K budget, not 2^K − KS_ROWS), so `encrypt` does not fail at the
claimed capacity. -/
theorem c5_counterexample_claimed_capacity :
    (sched_run 10 4 150 100 (4 * ((2 ^ 10 - 150) / 100) + 1)).isSome = true := by decide

/-- C5 amended: for positive AES_ROWS at most 2^K, the modelled scheduler
admits exactly ⌊(2^K − KS_ROWS)/AES_ROWS⌋ + (N − 1)·⌊2^K/AES_ROWS⌋ `encrypt`
calls (KS_ROWS is deducted from group 0's budget only), and the call after
that fails with capacity exhaustion. -/
theorem c5_capacity_exact (k n ks aes : Nat) (haes : 0 < aes) (hle : aes ≤ 2 ^ k)
    (hn : 0 < n) :
    (sched_run k n ks aes (sched_capacity k n ks aes)).isSome = true ∧
    sched_run k n ks aes (sched_capacity k n ks aes + 1) = none := by
  have hfin := sched_run_groups k n ks aes haes hle (n - 1) (by omega)
  have hcap : sched_capacity k n ks aes = (2 ^ k - ks) / aes + (n - 1) * (2 ^ k / aes) := rfl
  constructor
  · rw [hcap, hfin]
    rfl
  · rw [hcap]
    show (sched_iter k n ks aes { groupIdx := 0, blocks := 0 } (_ + 1)) = none
    rw [sched_iter_add]
    rw [show sched_iter k n ks aes { groupIdx := 0, blocks := 0 }
        ((2 ^ k - ks) / aes + (n - 1) * (2 ^ k / aes)) =
        sched_run k n ks aes ((2 ^ k - ks) / aes + (n - 1) * (2 ^ k / aes)) from rfl, hfin]
    have hb : (if n - 1 = 0 then (2 ^ k - ks) / aes else 2 ^ k / aes) =
        group_budget k ks (n - 1) / aes := by
      by_cases h : n - 1 = 0 <;> simp [group_budget, h]
    show (sched_iter k n ks aes _ 0).bind (sched_step k n ks aes) = none
    rw [hb]
    show sched_step k n ks aes
        { groupIdx := n - 1, blocks := group_budget k ks (n - 1) / aes } = none
    rw [sched_step_full k n ks aes haes (n - 1), if_neg (by omega)]

/-- C5 witness: the amended capacity statement at K = 10, N = 4,
KS_ROWS = 150, AES_ROWS = 100 — 8 + 3·10 = 38 calls succeed, the 39th
fails. -/
theorem c5_capacity_exact_witness :
    (sched_run 10 4 150 100 (sched_capacity 10 4 150 100)).isSome = true ∧
    sched_run 10 4 150 100 (sched_capacity 10 4 150 100 + 1) = none :=
  c5_capacity_exact 10 4 150 100 (by decide) (by decide) (by decide)

/-- C8: the round-constant sequence is [1, 2, 4, 8, 16, 32, 64, 128, 27, 54],
and the constant of index r is the one used when producing the first word of
output round r + 1.  First conjunct: for every key, the fixed-column
assignments of the `schedule_keys` trace are exactly the ten constants, the
one of index r at row 16·(r+1) — the row of the first byte of the first word
of output round r + 1.  Second conjunct: in the scheduled words, the first
byte of the first word of round m + 1 equals round constant index m XORed
with the S-box output of the rotated previous word's first byte, XORed with
the previous round's first byte.  Third conjunct: the constant at index 9 is
54. -/
theorem c8_round_constant_schedule :
    (∀ key : List Nat, fixed_assigns (ks_trace key) =
      [(16, 1), (32, 2), (48, 4), (64, 8), (80, 16),
       (96, 32), (112, 64), (128, 128), (144, 27), (160, 54)]) ∧
    (∀ m : Fin 10,
      ((schedule_words zero_block).getD (4 * (m.1 + 1)) []).getD 0 0 =
        xor_bytes
          (xor_bytes (ROUND_CONSTANT.getD m.1 0)
            (sub_byte ((rotate_word ((schedule_words zero_block).getD (4 * m.1 + 3) [])).getD 0 0)))
          (((schedule_words zero_block).getD (4 * m.1) []).getD 0 0)) ∧
    get_round_constant 9 = 54 := by
  refine ⟨fixed_assigns_ks_trace, by decide, rfl⟩

/-- C9 counterexample: calling `encrypt` with no key set does not fail with a
surfaced "keys not scheduled" error — it panics, via
`self.key.expect("Key should be set")`, with a different message. -/
theorem c9_counterexample_expect_panics :
    encrypt_checked none zero_block = EncOutcome.panic ("Key should be set") ∧
    EncOutcome.panic ("Key should be set") ≠ EncOutcome.panic ("keys not scheduled") := by
  refine ⟨rfl, by decide⟩

/-- C9 amended: if `encrypt` is invoked before any key has been set, it
panics (crashes) with the `expect` message "Key should be set" rather than
returning an error, and nothing is assigned by that call. -/
theorem c9_unset_key_panics_nothing_assigned (pt : List Nat) :
    encrypt_checked none pt = EncOutcome.panic ("Key should be set") ∧
    enc_trace_checked none pt = [] := by
  exact ⟨rfl, rfl⟩

/-- C9 witness: the amended statement at the all-zero plaintext. -/
theorem c9_unset_key_panics_witness :
    encrypt_checked none zero_block = EncOutcome.panic ("Key should be set") ∧
    enc_trace_checked none zero_block = [] :=
  c9_unset_key_panics_nothing_assigned zero_block

/-- C10: every entry of the MixColumns coefficient matrix literal is 1, 2 or
3, and consequently the `lcon` coefficient dispatch never reaches its panic
branch on any `encrypt` call: for every key and plaintext the embedded
`encrypt` (whose `lcon` returns `none` exactly on the panic branch) returns a
value, and the checked outcome is never the `lcon` panic. -/
theorem c10_lcon_panic_unreachable :
    mix_matrix.all (fun row => row.all (fun c => c == 1 || c == 2 || c == 3)) = true ∧
    (∀ key pt : List Nat, (encrypt key pt).isSome = true) ∧
    (∀ key pt : List Nat,
      encrypt_checked (some key) pt ≠ EncOutcome.panic ("col should be 1, 2, or 3.")) := by
  refine ⟨by decide, fun key pt => rfl, fun key pt h => ?_⟩
  have h2 : (encrypt key pt).isSome = true := rfl
  obtain ⟨out, hout⟩ := Option.isSome_iff_exists.mp h2
  simp only [encrypt_checked] at h
  rw [hout] at h
  simp at h

/-- Helper: the nested XOR loops enumerate row `l` as the pair
`(l / 256, l % 256)`. -/
theorem xor_flat_aux (n : Nat) :
    (List.range n).flatMap (fun i => (List.range 256).map
        (fun j => ((Tag_Xor : Nat), i, j, i ^^^ j))) =
      (List.range (256 * n)).map
        (fun l => ((Tag_Xor : Nat), l / 256, l % 256, (l / 256) ^^^ (l % 256))) := by
  induction n with
  | zero => rfl
  | succ n ih =>
    rw [List.range_succ, List.flatMap_append, ih, Nat.mul_succ, List.range_add,
      List.map_append, List.map_map, List.flatMap_cons, List.flatMap_nil, List.append_nil]
    congr 1
    apply List.map_congr_left
    intro j hj
    have hlt : j < 256 := List.mem_range.mp hj
    have hd : (256 * n + j) / 256 = n := by omega
    have hm : (256 * n + j) % 256 = j := by omega
    simp [Function.comp, hd, hm]

/-- Helper: the XOR segment in row-index form. -/
theorem xor_seg_eq :
    xor_seg = (List.range 65536).map
      (fun l => ((Tag_Xor : Nat), l / 256, l % 256, (l / 256) ^^^ (l % 256))) := by
  rw [xor_seg, xor_flat_aux 256]

/-- Helper: u8 segment length. -/
theorem u8_seg_length : u8_seg.length = 256 := by simp [u8_seg]

/-- Helper: S-box segment length. -/
theorem sbox_seg_length : sbox_seg.length = 256 := by simp [sbox_seg]

/-- Helper: XOR segment length. -/
theorem xor_seg_length : xor_seg.length = 65536 := by rw [xor_seg_eq]; simp

/-- Helper: mul-by-2 segment length. -/
theorem mul2_seg_length : mul2_seg.length = 256 := by simp [mul2_seg]

/-- Helper: mul-by-3 segment length. -/
theorem mul3_seg_length : mul3_seg.length = 256 := by simp [mul3_seg]

/-- Helper: total length of the tagged table. -/
theorem load_enc_full_table_length : load_enc_full_table.length = 66561 := by
  rw [load_enc_full_table, List.length_append, List.length_append, List.length_append,
    List.length_append, List.length_append, u8_seg_length, sbox_seg_length, xor_seg_length,
    mul2_seg_length, mul3_seg_length]
  rfl

/-- Helper: the row at every position of the tagged table is the one the
claim describes. -/
theorem load_enc_full_table_getElem (p : Nat) (hp : p < 66561) :
    load_enc_full_table[p]? = some (spec_table_row p) := by
  have hL2 : (u8_seg ++ sbox_seg).length = 512 := by
    rw [List.length_append, u8_seg_length, sbox_seg_length]
  have hL3 : (u8_seg ++ sbox_seg ++ xor_seg).length = 66048 := by
    rw [List.length_append, hL2, xor_seg_length]
  have hL4 : (u8_seg ++ sbox_seg ++ xor_seg ++ mul2_seg).length = 66304 := by
    rw [List.length_append, hL3, mul2_seg_length]
  have hL5 : (u8_seg ++ sbox_seg ++ xor_seg ++ mul2_seg ++ mul3_seg).length = 66560 := by
    rw [List.length_append, hL4, mul3_seg_length]
  rw [load_enc_full_table]
  by_cases h1 : p < 256
  · have e5 : p < (u8_seg ++ sbox_seg ++ xor_seg ++ mul2_seg ++ mul3_seg).length := by
      rw [hL5]; omega
    have e4 : p < (u8_seg ++ sbox_seg ++ xor_seg ++ mul2_seg).length := by rw [hL4]; omega
    have e3 : p < (u8_seg ++ sbox_seg ++ xor_seg).length := by rw [hL3]; omega
    have e2 : p < (u8_seg ++ sbox_seg).length := by rw [hL2]; omega
    have e1 : p < u8_seg.length := by rw [u8_seg_length]; omega
    rw [List.getElem?_append_left e5, List.getElem?_append_left e4,
      List.getElem?_append_left e3, List.getElem?_append_left e2,
      List.getElem?_append_left e1]
    rw [u8_seg, List.getElem?_map, List.getElem?_range h1]
    simp [spec_table_row, h1, Tag_U8]
  · by_cases h2 : p < 512
    · have e5 : p < (u8_seg ++ sbox_seg ++ xor_seg ++ mul2_seg ++ mul3_seg).length := by
        rw [hL5]; omega
      have e4 : p < (u8_seg ++ sbox_seg ++ xor_seg ++ mul2_seg).length := by rw [hL4]; omega
      have e3 : p < (u8_seg ++ sbox_seg ++ xor_seg).length := by rw [hL3]; omega
      have e2 : p < (u8_seg ++ sbox_seg).length := by rw [hL2]; omega
      have e1 : u8_seg.length ≤ p := by rw [u8_seg_length]; omega
      rw [List.getElem?_append_left e5, List.getElem?_append_left e4,
        List.getElem?_append_left e3, List.getElem?_append_left e2,
        List.getElem?_append_right e1, u8_seg_length]
      rw [sbox_seg, List.getElem?_map, List.getElem?_range (show p - 256 < 256 by omega)]
      simp only [Option.map_some']
      rw [spec_table_row, if_neg (by omega), if_pos (by omega)]
      rfl
    · by_cases h3 : p < 66048
      · have e5 : p < (u8_seg ++ sbox_seg ++ xor_seg ++ mul2_seg ++ mul3_seg).length := by
          rw [hL5]; omega
        have e4 : p < (u8_seg ++ sbox_seg ++ xor_seg ++ mul2_seg).length := by rw [hL4]; omega
        have e3 : p < (u8_seg ++ sbox_seg ++ xor_seg).length := by rw [hL3]; omega
        have e2 : (u8_seg ++ sbox_seg).length ≤ p := by rw [hL2]; omega
        rw [List.getElem?_append_left e5, List.getElem?_append_left e4,
          List.getElem?_append_left e3, List.getElem?_append_right e2, hL2]
        rw [xor_seg_eq, List.getElem?_map,
          List.getElem?_range (show p - 512 < 65536 by omega)]
        simp only [Option.map_some']
        rw [spec_table_row, if_neg (by omega), if_neg (by omega), if_pos (by omega)]
        rfl
      · by_cases h4 : p < 66304
        · have e5 : p < (u8_seg ++ sbox_seg ++ xor_seg ++ mul2_seg ++ mul3_seg).length := by
            rw [hL5]; omega
          have e4 : p < (u8_seg ++ sbox_seg ++ xor_seg ++ mul2_seg).length := by
            rw [hL4]; omega
          have e3 : (u8_seg ++ sbox_seg ++ xor_seg).length ≤ p := by rw [hL3]; omega
          rw [List.getElem?_append_left e5, List.getElem?_append_left e4,
            List.getElem?_append_right e3, hL3]
          rw [mul2_seg, List.getElem?_map,
            List.getElem?_range (show p - 66048 < 256 by omega)]
          simp only [Option.map_some']
          rw [spec_table_row, if_neg (by omega), if_neg (by omega), if_neg (by omega),
            if_pos (by omega)]
          rfl
        · by_cases h5 : p < 66560
          · have e5 : p < (u8_seg ++ sbox_seg ++ xor_seg ++ mul2_seg ++ mul3_seg).length := by
              rw [hL5]; omega
            have e4 : (u8_seg ++ sbox_seg ++ xor_seg ++ mul2_seg).length ≤ p := by
              rw [hL4]; omega
            rw [List.getElem?_append_left e5, List.getElem?_append_right e4, hL4]
            rw [mul3_seg, List.getElem?_map,
              List.getElem?_range (show p - 66304 < 256 by omega)]
            simp only [Option.map_some']
            rw [spec_table_row, if_neg (by omega), if_neg (by omega), if_neg (by omega),
              if_neg (by omega), if_pos (by omega)]
            rfl
          · have hpz : p = 66560 := by omega
            subst hpz
            have e5 : (u8_seg ++ sbox_seg ++ xor_seg ++ mul2_seg ++ mul3_seg).length ≤ 66560 := by
              rw [hL5]
            rw [List.getElem?_append_right e5, hL5]
            rw [spec_table_row, if_neg (by omega), if_neg (by omega), if_neg (by omega),
              if_neg (by omega), if_neg (by omega)]
            rfl

/-- C7: `load_enc_full_table` fills the tagged table in exactly the claimed
row order — position p holds: for p < 256 the U8 row (tag 1, x = p, y = z =
0); for p < 512 the S-box row (tag 3); for p < 66048 the XOR row (tag 2) of
pair (⌊(p−512)/256⌋, (p−512) mod 256); for p < 66304 the mul-by-2 row (tag
4); for p < 66560 the mul-by-3 row (tag 5); and at p = 66560 the single
all-zero sentinel row — 66,561 rows in total, and `spec_table_row` is
injective on positions, so the table contains exactly one row per semantic
entry. -/
theorem c7_tagged_table_layout :
    load_enc_full_table.length = 66561 ∧
    (∀ p : Nat, p < 66561 → load_enc_full_table[p]? = some (spec_table_row p)) ∧
    (∀ p q : Nat, p < 66561 → q < 66561 → spec_table_row p = spec_table_row q → p = q) := by
  refine ⟨load_enc_full_table_length, load_enc_full_table_getElem, ?_⟩
  intro p q hp hq h
  simp only [spec_table_row] at h
  split_ifs at h <;> simp only [Prod.mk.injEq] at h <;> omega

/-- C7 witness: the layout statement applied at position 600 (an XOR row). -/
theorem c7_tagged_table_layout_witness :
    load_enc_full_table[600]? = some (spec_table_row 600) ∧ (600 : Nat) = 600 :=
  ⟨c7_tagged_table_layout.2.1 600 (by omega),
   c7_tagged_table_layout.2.2 600 600 (by omega) (by omega) rfl⟩

end HaloAes
